import Mathlib

/-!
Verification of the JapanItinery translator core against its specification.

The definitions below are a shallow embedding of the JavaScript sources:

* `src/translator/translation.js` — translation cache, provider chain,
  request coalescing (`translate`, `performTranslation`, `addToCache`);
* `src/translator/app.js` — translation history (`addToHistory`);
* `src/translator/ocr.js` — recognition-result parsing (`parseResult`) and
  the sharpen convolution (`sharpenImage`);
* `src/translator/voice.js` — session finalization (`finishListening`).

JavaScript `Map` objects are embedded as association lists that keep
insertion order (a `set` on an existing key updates the value in place,
matching the `Map` semantics).  JavaScript string trimming is embedded as
`jsTrim`, and the `a || b` string/number defaulting idiom as `jsOrStr` /
`jsNumOr` (the empty string and the number 0 are falsy).
-/

namespace Itinerary

/-- Embedding of the JavaScript `String.prototype.trim`: drop leading and
trailing whitespace characters. -/
def jsTrim (s : String) : String :=
  String.mk (((s.data.dropWhile Char.isWhitespace).reverse.dropWhile
    Char.isWhitespace).reverse)

/-- Embedding of the JavaScript idiom `a || b` on strings: the empty string
is falsy and selects the default. -/
def jsOrStr (a b : String) : String := if a = "" then b else a

/-- Embedding of the JavaScript idiom `a || b` where `a` may be absent
(`undefined`) or a string; used for `lastError?.message || default`. -/
def jsOrOptStr (a : Option String) (b : String) : String :=
  match a with
  | some s => if s = "" then b else s
  | none => b

/-- Embedding of the JavaScript idiom `a || b` on numbers with `a` possibly
absent: `0` is falsy and selects the default. -/
def jsNumOr (a : Option ℚ) (b : ℚ) : ℚ :=
  match a with
  | some m => if m = 0 then b else m
  | none => b

/-! ### JavaScript `Map` embedding (insertion-ordered association list) -/

/-- Embedding of `Map.prototype.set`: update in place when the key exists (keeping its
insertion position), otherwise append at the end. -/
def mapSet {V : Type} (k : String) (v : V) :
    List (String × V) → List (String × V)
  | [] => [(k, v)]
  | (k2, v2) :: rest =>
      if k2 = k then (k2, v) :: rest else (k2, v2) :: mapSet k v rest

/-- Embedding of `Map.prototype.delete`: remove the entry with the given key. -/
def mapDelete {V : Type} (k : String) :
    List (String × V) → List (String × V)
  | [] => []
  | (k2, v2) :: rest =>
      if k2 = k then rest else (k2, v2) :: mapDelete k rest

/-- Embedding of `Map.prototype.get` (with `undefined` as `none`). -/
def mapGet {V : Type} (k : String) : List (String × V) → Option V
  | [] => none
  | (k2, v2) :: rest => if k2 = k then some v2 else mapGet k rest

/-- A real JavaScript `Map` never holds two entries with the same key; the
embedding records that as an invariant on the association list. -/
def NodupKeys {V : Type} (m : List (String × V)) : Prop :=
  (m.map Prod.fst).Nodup

/-! ### Translation module (`src/translator/translation.js`) -/

/-- The `config` object of the translation module (lines 17–23). -/
structure TransConfig where
  maxCacheSize : Nat
  cacheKeyName : String
  timeout : Nat
  retryAttempts : Nat
  retryDelay : Nat

def config : TransConfig :=
  { maxCacheSize := 500
    cacheKeyName := "tokyoTranslationCache"
    timeout := 10000
    retryAttempts := 2
    retryDelay := 1000 }

/-- The keys of the `providers` object, in declaration (priority) order. -/
def providerKeys : List String := ["mymemory", "libretranslate", "lingva"]

/-- What a provider `translate` returns on its non-throwing path. -/
structure ProviderResult where
  success : Bool
  translation : String
  confidence : ℚ
  provider : String
deriving DecidableEq

/-- A cache entry as stored by `addToCache` (translation.js lines 319–324). -/
structure CacheEntry where
  translation : String
  confidence : ℚ
  provider : String
  timestamp : Nat
deriving DecidableEq

abbrev Cache := List (String × CacheEntry)

def mkCacheEntry (r : ProviderResult) (now : Nat) : CacheEntry :=
  { translation := r.translation
    confidence := r.confidence
    provider := r.provider
    timestamp := now }

/-- Embedding of `addToCache` (translation.js lines 310–328): when the size has reached
`maxCacheSize`, delete the first `floor(maxCacheSize / 4)` keys in insertion
order, then insert the new entry.  `Date.now()` is the `now` parameter; the
`saveCache()` persistence call has no effect on the map itself. -/
def addToCache (text : String) (r : ProviderResult) (now : Nat)
    (c : Cache) : Cache :=
  let c1 := if config.maxCacheSize ≤ c.length then
      ((c.map Prod.fst).take (config.maxCacheSize / 4)).foldl
        (fun acc k => mapDelete k acc) c
    else c
  mapSet text (mkCacheEntry r now) c1

/-- Embedding of `getFromCache` (translation.js lines 301–303). -/
def getFromCache (text : String) (c : Cache) : Option CacheEntry :=
  mapGet text c

/-! ### Basic lemmas about the map embedding -/

theorem mapDelete_cons_self {V : Type} (k : String) (v : V)
    (rest : List (String × V)) : mapDelete k ((k, v) :: rest) = rest := by
  simp [mapDelete]

theorem deleteKeys_eq_drop {V : Type} :
    ∀ (m : List (String × V)) (n : Nat), NodupKeys m →
      (((m.map Prod.fst).take n).foldl (fun acc k => mapDelete k acc) m) =
        m.drop n := by
  intro m
  induction m with
  | nil => intro n _; simp
  | cons hd tl ih =>
    intro n hnd
    obtain ⟨k0, v0⟩ := hd
    cases n with
    | zero => simp
    | succ n2 =>
      have hnd2 : (k0 :: tl.map Prod.fst).Nodup := by
        simpa [NodupKeys] using hnd
      have htl : NodupKeys tl := List.Nodup.of_cons hnd2
      simp only [List.map_cons, List.take_succ_cons, List.foldl_cons]
      rw [mapDelete_cons_self]
      simpa using ih n2 htl

theorem mapSet_length_le {V : Type} (k : String) (v : V) :
    ∀ m : List (String × V), (mapSet k v m).length ≤ m.length + 1 := by
  intro m
  induction m with
  | nil => simp [mapSet]
  | cons hd tl ih =>
    obtain ⟨k2, v2⟩ := hd
    by_cases h : k2 = k
    · simp [mapSet, h]
    · simp only [mapSet, if_neg h, List.length_cons]
      omega

theorem mem_keys_mapSet {V : Type} (k : String) (v : V) (a : String) :
    ∀ m : List (String × V),
      a ∈ (mapSet k v m).map Prod.fst → a ∈ m.map Prod.fst ∨ a = k := by
  intro m
  induction m with
  | nil => simp [mapSet]
  | cons hd tl ih =>
    obtain ⟨k2, v2⟩ := hd
    by_cases h : k2 = k
    · simp [mapSet, h]
      tauto
    · intro hmem
      simp only [mapSet, if_neg h, List.map_cons, List.mem_cons] at hmem
      rcases hmem with h1 | h2
      · left; simp [h1]
      · rcases ih h2 with h3 | h3
        · left; simp [h3]
        · right; exact h3

theorem mapSet_nodup {V : Type} (k : String) (v : V) :
    ∀ m : List (String × V), NodupKeys m → NodupKeys (mapSet k v m) := by
  intro m
  induction m with
  | nil => intro _; simp [mapSet, NodupKeys]
  | cons hd tl ih =>
    intro hnd
    obtain ⟨k2, v2⟩ := hd
    have hnd2 : (k2 :: tl.map Prod.fst).Nodup := by
      simpa [NodupKeys] using hnd
    by_cases h : k2 = k
    · have : ((k2, v) :: tl).map Prod.fst = k2 :: tl.map Prod.fst := by simp
      simpa [mapSet, h, NodupKeys, this] using hnd2
    · have htl : NodupKeys (mapSet k v tl) := ih (List.Nodup.of_cons hnd2)
      have hk2 : k2 ∉ (mapSet k v tl).map Prod.fst := by
        intro hmem
        rcases mem_keys_mapSet k v k2 tl hmem with h1 | h1
        · exact (List.nodup_cons.mp hnd2).1 h1
        · exact h h1
      have : NodupKeys (((k2, v2) :: mapSet k v tl)) := by
        simpa [NodupKeys] using List.nodup_cons.mpr ⟨hk2, htl⟩
      simpa [mapSet, if_neg h] using this

theorem drop_nodupKeys {V : Type} (m : List (String × V)) (n : Nat)
    (hnd : NodupKeys m) : NodupKeys (m.drop n) := by
  have hsub : List.Sublist ((m.drop n).map Prod.fst) (m.map Prod.fst) :=
    (List.drop_sublist n m).map Prod.fst
  exact List.Nodup.sublist hsub hnd

/-- Eviction, stated structurally: when the bound has been hit, deleting the
first quarter of the keys (insertion order) is exactly dropping the oldest
quarter of the entries. -/
theorem addToCache_hit_bound (t : String) (r : ProviderResult) (now : Nat)
    (c : Cache) (hnd : NodupKeys c) (hlen : config.maxCacheSize ≤ c.length) :
    addToCache t r now c =
      mapSet t (mkCacheEntry r now) (c.drop (config.maxCacheSize / 4)) := by
  unfold addToCache
  rw [if_pos hlen, deleteKeys_eq_drop c (config.maxCacheSize / 4) hnd]

theorem addToCache_nodup (t : String) (r : ProviderResult) (now : Nat)
    (c : Cache) (hnd : NodupKeys c) : NodupKeys (addToCache t r now c) := by
  by_cases h : config.maxCacheSize ≤ c.length
  · rw [addToCache_hit_bound t r now c hnd h]
    exact mapSet_nodup _ _ _ (drop_nodupKeys c _ hnd)
  · unfold addToCache
    rw [if_neg h]
    exact mapSet_nodup _ _ _ hnd

theorem addToCache_length (t : String) (r : ProviderResult) (now : Nat)
    (c : Cache) (hnd : NodupKeys c) (hle : c.length ≤ config.maxCacheSize) :
    (addToCache t r now c).length ≤ config.maxCacheSize := by
  by_cases h : config.maxCacheSize ≤ c.length
  · rw [addToCache_hit_bound t r now c hnd h]
    have h1 := mapSet_length_le t (mkCacheEntry r now)
      (c.drop (config.maxCacheSize / 4))
    have h2 : (c.drop (config.maxCacheSize / 4)).length =
        c.length - config.maxCacheSize / 4 := by simp
    simp only [config] at h hle h1 h2 ⊢
    omega
  · unfold addToCache
    rw [if_neg h]
    have h1 := mapSet_length_le t (mkCacheEntry r now) c
    simp only [config] at h hle h1 ⊢
    omega

theorem cacheFold_inv (inserts : List (String × ProviderResult × Nat)) :
    ∀ c : Cache, NodupKeys c → c.length ≤ config.maxCacheSize →
      NodupKeys (inserts.foldl (fun acc i => addToCache i.1 i.2.1 i.2.2 acc) c) ∧
      (inserts.foldl (fun acc i => addToCache i.1 i.2.1 i.2.2 acc) c).length ≤
        config.maxCacheSize := by
  induction inserts with
  | nil => intro c hnd hle; exact ⟨hnd, hle⟩
  | cons hd tl ih =>
    intro c hnd hle
    simp only [List.foldl_cons]
    exact ih _ (addToCache_nodup _ _ _ c hnd) (addToCache_length _ _ _ c hnd hle)

/-- Claim C1: for every sequence of insertions the translation cache never
exceeds the configured maximum (500) after an insert, and when an insert hits
the bound the oldest `floor(maxCacheSize / 4) = 125` entries, by insertion
order, are evicted before the new entry is added. -/
theorem cache_bound_and_eviction :
    config.maxCacheSize = 500 ∧ config.maxCacheSize / 4 = 125 ∧
    (∀ inserts : List (String × ProviderResult × Nat),
      (inserts.foldl (fun acc i => addToCache i.1 i.2.1 i.2.2 acc)
        ([] : Cache)).length ≤ config.maxCacheSize) ∧
    (∀ (c : Cache) (t : String) (r : ProviderResult) (now : Nat),
      NodupKeys c → config.maxCacheSize ≤ c.length →
      addToCache t r now c =
        mapSet t (mkCacheEntry r now) (c.drop (config.maxCacheSize / 4))) := by
  refine ⟨rfl, rfl, ?_, ?_⟩
  · intro inserts
    exact (cacheFold_inv inserts [] (by simp [NodupKeys]) (by simp [config])).2
  · intro c t r now hnd hlen
    exact addToCache_hit_bound t r now c hnd hlen

/-- A concrete cache of 500 distinct keys, used to exercise the eviction
branch of `addToCache`. -/
def bigCache : Cache :=
  (List.range 500).map
    (fun i => (String.mk (List.replicate i 'a'),
      mkCacheEntry ⟨true, "t", 1, "MyMemory"⟩ 0))

theorem bigCache_nodup : NodupKeys bigCache := by
  have : bigCache.map Prod.fst =
      (List.range 500).map (fun i => String.mk (List.replicate i 'a')) := by
    simp [bigCache]
  rw [NodupKeys, this]
  refine List.Nodup.map ?_ (List.nodup_range 500)
  intro i j hij
  have hdata := congrArg String.data hij
  simpa using congrArg List.length hdata

theorem cache_bound_and_eviction_witness :
    NodupKeys bigCache ∧ config.maxCacheSize ≤ bigCache.length ∧
    addToCache "k" ⟨true, "t", 1, "MyMemory"⟩ 7 bigCache =
      mapSet "k" (mkCacheEntry ⟨true, "t", 1, "MyMemory"⟩ 7)
        (bigCache.drop (config.maxCacheSize / 4)) := by
  have hlen : config.maxCacheSize ≤ bigCache.length := by
    simp [bigCache, config]
  exact ⟨bigCache_nodup, hlen,
    cache_bound_and_eviction.2.2.2 bigCache "k" ⟨true, "t", 1, "MyMemory"⟩ 7
      bigCache_nodup hlen⟩

/-! ### Provider chain (`performTranslation`) and the `translate` entry point

The network is abstracted as an `Oracle` giving, for each provider name and
attempt index, either the value the provider `translate` resolves with or
the message of the error it throws (timeouts included).  Every observable
action of the loop — an outbound attempt, a retry sleep, a cache or
pending-map lookup — is recorded in an event trace. -/

inductive Event
  | attempt (p : String) (k : Nat)
  | sleep (ms : Nat)
  | cacheLookup (t : String)
  | pendingLookup (t : String)
deriving DecidableEq

def Oracle : Type := String → Nat → Except String ProviderResult

/-- One provider, attempts `k, k+1, ...` while fuel lasts (translation.js
lines 237–260): a thrown error updates `lastError` and, when another attempt
remains (`attempt < retryAttempts - 1`), sleeps `retryDelay`; a resolved
value is returned only when its `success` flag is set, otherwise the loop
just continues (without touching `lastError`). -/
def tryAttemptsAux (oracle : Oracle) (p : String) :
    Nat → Nat → Option String →
      Option ProviderResult × Option String × List Event
  | 0, _, lastErr => (none, lastErr, [])
  | n + 1, k, lastErr =>
    match oracle p k with
    | .ok r =>
      if r.success then (some r, lastErr, [.attempt p k])
      else
        let res := tryAttemptsAux oracle p n (k + 1) lastErr
        (res.1, res.2.1, .attempt p k :: res.2.2)
    | .error e =>
      let sl : List Event :=
        if k < config.retryAttempts - 1 then [.sleep config.retryDelay] else []
      let res := tryAttemptsAux oracle p n (k + 1) (some e)
      (res.1, res.2.1, .attempt p k :: (sl ++ res.2.2))

def tryAttempts (oracle : Oracle) (p : String) (lastErr : Option String) :
    Option ProviderResult × Option String × List Event :=
  tryAttemptsAux oracle p config.retryAttempts 0 lastErr

/-- The outer provider loop (translation.js lines 233–261), including the
`if (!provider) continue` guard for names that are not actual providers. -/
def tryProviders (oracle : Oracle) :
    List String → Option String →
      Option (String × ProviderResult) × Option String × List Event
  | [], lastErr => (none, lastErr, [])
  | p :: rest, lastErr =>
    if p ∈ providerKeys then
      match tryAttempts oracle p lastErr with
      | (some r, e, tr) => (some (p, r), e, tr)
      | (none, e, tr) =>
        let res := tryProviders oracle rest e
        (res.1, res.2.1, tr ++ res.2.2)
    else tryProviders oracle rest lastErr

/-- Provider iteration order (translation.js lines 227–229): the preferred
provider if the caller passed one, else the active provider, followed by the
remaining providers in declaration order.  The JavaScript condition is
truthiness, so an empty-string name falls through to the next case. -/
def defaultOrder (active : Option String) : List String :=
  match active with
  | some a => if a = "" then providerKeys
      else a :: providerKeys.filter (fun q => q != a)
  | none => providerKeys

def providerOrder (preferred active : Option String) : List String :=
  match preferred with
  | some p => if p = "" then defaultOrder active
      else p :: providerKeys.filter (fun q => q != p)
  | none => defaultOrder active

/-- A JavaScript result object, with `none` marking an absent field and
`some none` (for `translation`) a field holding `null`. -/
structure TransOutcome where
  success : Option Bool := none
  error : Option String := none
  translation : Option (Option String) := none
  confidence : Option ℚ := none
  provider : Option String := none
  timestamp : Option Nat := none
  fromCache : Option Bool := none
deriving DecidableEq

/-- The object a successful provider attempt resolves with and
`performTranslation` returns unchanged. -/
def providerOutcome (r : ProviderResult) : TransOutcome :=
  { success := some r.success
    translation := some (some r.translation)
    confidence := some r.confidence
    provider := some r.provider }

/-- The all-providers-failed object (translation.js lines 264–268). -/
def failureOutcome (lastErr : Option String) : TransOutcome :=
  { success := some false
    error := some (jsOrOptStr lastErr "All translation services unavailable")
    translation := some none }

/-- The object returned on a cache hit: the cached entry spread together
with `fromCache: true` — note there is no `success` field. -/
def cachedOutcome (e : CacheEntry) : TransOutcome :=
  { translation := some (some e.translation)
    confidence := some e.confidence
    provider := some e.provider
    timestamp := some e.timestamp
    fromCache := some true }

/-- Module-level mutable state of translation.js: the cache, the
pending-translations map (text to promise id), the promise counter and the
active provider. -/
structure TState where
  cache : Cache
  pending : List (String × Nat)
  nextPromise : Nat
  active : Option String
deriving DecidableEq

/-- Embedding of `performTranslation` (translation.js lines 226–269).  On the first
successful attempt the result is cached (`addToCache`), the provider is
recorded as active, and the provider object is returned; if every attempt
fails the failure object carrying the last thrown error is returned — the
function is total, so nothing is thrown across this boundary. -/
def performTranslation (oracle : Oracle) (text : String)
    (preferred : Option String) (now : Nat) (st : TState) :
    TransOutcome × TState × List Event :=
  match tryProviders oracle (providerOrder preferred st.active) none with
  | (some (p, r), _, tr) =>
    (providerOutcome r,
      { st with cache := addToCache text r now st.cache, active := some p },
      tr)
  | (none, lastErr, tr) => (failureOutcome lastErr, st, tr)

/-- The argument of `translate`: `null`/`undefined`, a string, or some other
non-string value. -/
inductive JsInput
  | jsNull
  | jsStr (s : String)
  | jsOther
deriving DecidableEq

/-- What the synchronous part of `translate` (lines 183–208) does before any
awaiting: an early failure return, a cache hit, joining an in-flight promise,
or registering a fresh promise for the cleaned text. -/
inductive TranslateStep
  | earlyFail (r : TransOutcome)
  | cachedHit (r : TransOutcome)
  | joined (pid : Nat)
  | started (pid : Nat) (cleanText : String)
deriving DecidableEq

def invalidInputOutcome : TransOutcome :=
  { success := some false, error := some "Invalid input text" }

def emptyTextOutcome : TransOutcome :=
  { success := some false, error := some "Empty text" }

def translatePendingPhase (cleanText : String) (st : TState) :
    TranslateStep × TState × List Event :=
  match mapGet cleanText st.pending with
  | some pid => (.joined pid, st, [.pendingLookup cleanText])
  | none =>
    (.started st.nextPromise cleanText,
      { st with
          pending := mapSet cleanText st.nextPromise st.pending
          nextPromise := st.nextPromise + 1 },
      [.pendingLookup cleanText])

/-- Embedding of `translate` up to its first suspension (translation.js lines 183–208).
The validity checks run before any cache or pending lookup, so an invalid
input produces an empty trace and leaves the state untouched. -/
def translateSync (input : JsInput) (skipCache : Bool) (st : TState) :
    TranslateStep × TState × List Event :=
  match input with
  | .jsNull => (.earlyFail invalidInputOutcome, st, [])
  | .jsOther => (.earlyFail invalidInputOutcome, st, [])
  | .jsStr s =>
    if s = "" then (.earlyFail invalidInputOutcome, st, [])
    else if jsTrim s = "" then (.earlyFail emptyTextOutcome, st, [])
    else
      match mapGet (jsTrim s) st.cache with
      | some e =>
        if skipCache then
          let res := translatePendingPhase (jsTrim s) st
          (res.1, res.2.1, .cacheLookup (jsTrim s) :: res.2.2)
        else (.cachedHit (cachedOutcome e), st, [.cacheLookup (jsTrim s)])
      | none =>
        let res := translatePendingPhase (jsTrim s) st
        (res.1, res.2.1, .cacheLookup (jsTrim s) :: res.2.2)

/-- A whole `translate` call when it is the only caller driving the promise:
the synchronous part, then — if a fresh promise was registered — the awaited
`performTranslation` and the pending-map cleanup of lines 210–217.  A
`joined` step yields `none`: that caller returns the promise owned by an
earlier call. -/
def translateRun (oracle : Oracle) (input : JsInput) (skipCache : Bool)
    (preferred : Option String) (now : Nat) (st : TState) :
    Option TransOutcome × TState × List Event :=
  match translateSync input skipCache st with
  | (.earlyFail r, st1, tr) => (some r, st1, tr)
  | (.cachedHit r, st1, tr) => (some r, st1, tr)
  | (.joined _, st1, tr) => (none, st1, tr)
  | (.started _ cleanText, st1, tr) =>
    let res := performTranslation oracle cleanText preferred now st1
    (some res.1,
      { res.2.1 with pending := mapDelete cleanText res.2.1.pending },
      tr ++ res.2.2)

/-! ### Trace analysis for the provider chain -/

/-- The events of one provider when both attempts run and a retry sleep
separates them. -/
def attemptBlock (p : String) : List Event :=
  [.attempt p 0, .sleep config.retryDelay, .attempt p 1]

/-- The full event schedule when every provider of the order exhausts its
attempts. -/
def canonicalFull (order : List String) : List Event :=
  (order.map attemptBlock).flatten

/-- Predicate: `l` is an initial segment of `big`. -/
def firstSegOf {α : Type} (l big : List α) : Prop := ∃ t, l ++ t = big

/-- The value of a successful attempt, if attempt `k` of provider `p`
resolves with a success-flagged result. -/
def successAt (oracle : Oracle) (p : String) (k : Nat) :
    Option ProviderResult :=
  match oracle p k with
  | .ok r => if r.success then some r else none
  | .error _ => none

/-- The first successful attempt of provider `p` within the retry budget. -/
def firstSuccessAttempt (oracle : Oracle) (p : String) :
    Option (Nat × ProviderResult) :=
  match successAt oracle p 0 with
  | some r => some (0, r)
  | none =>
    match successAt oracle p 1 with
    | some r => some (1, r)
    | none => none

/-- The first provider/attempt pair of the given order that succeeds,
skipping names that are not actual providers. -/
def firstSuccess (oracle : Oracle) :
    List String → Option (String × Nat × ProviderResult)
  | [] => none
  | p :: rest =>
    if p ∈ providerKeys then
      match firstSuccessAttempt oracle p with
      | some (k, r) => some (p, k, r)
      | none => firstSuccess oracle rest
    else firstSuccess oracle rest

/-- The real providers of translation.js either resolve with a
success-flagged object or throw; an oracle of that shape is good. -/
def GoodOracle (oracle : Oracle) : Prop :=
  ∀ p k r, oracle p k = .ok r → r.success = true

/-- Number of outbound attempts to provider `p` recorded in a trace. -/
def countAttempts (p : String) (tr : List Event) : Nat :=
  tr.countP (fun e => match e with
    | .attempt q _ => q == p
    | _ => false)

theorem config_retryAttempts : config.retryAttempts = 2 := rfl

theorem config_retryDelay : config.retryDelay = 1000 := rfl

/-! ### Attempt-level lemmas -/

theorem tryAttempts_err_err (oracle : Oracle) (p : String)
    (lastErr : Option String) (e0 e1 : String)
    (h0 : oracle p 0 = .error e0) (h1 : oracle p 1 = .error e1) :
    tryAttempts oracle p lastErr = (none, some e1, attemptBlock p) := by
  simp [tryAttempts, tryAttemptsAux, h0, h1, config, attemptBlock]

theorem tryAttempts_ok0 (oracle : Oracle) (p : String)
    (lastErr : Option String) (r : ProviderResult)
    (h0 : oracle p 0 = .ok r) (hs : r.success = true) :
    tryAttempts oracle p lastErr = (some r, lastErr, [.attempt p 0]) := by
  simp [tryAttempts, tryAttemptsAux, h0, hs, config]

theorem tryAttempts_err_ok (oracle : Oracle) (p : String)
    (lastErr : Option String) (e0 : String) (r : ProviderResult)
    (h0 : oracle p 0 = .error e0) (h1 : oracle p 1 = .ok r)
    (hs : r.success = true) :
    tryAttempts oracle p lastErr =
      (some r, some e0,
        [.attempt p 0, .sleep config.retryDelay, .attempt p 1]) := by
  simp [tryAttempts, tryAttemptsAux, h0, h1, hs, config]

/-- Under a good oracle, a provider whose two attempts contain no success
must have thrown twice. -/
theorem firstSuccessAttempt_none (oracle : Oracle) (p : String)
    (hg : GoodOracle oracle) (hn : firstSuccessAttempt oracle p = none) :
    ∃ e0 e1, oracle p 0 = .error e0 ∧ oracle p 1 = .error e1 := by
  rcases ho0 : oracle p 0 with e0 | r0
  · rcases ho1 : oracle p 1 with e1 | r1
    · exact ⟨e0, e1, rfl, rfl⟩
    · simp [firstSuccessAttempt, successAt, ho0, ho1, hg p 1 r1 ho1] at hn
  · simp [firstSuccessAttempt, successAt, ho0, hg p 0 r0 ho0] at hn

theorem tryAttempts_result_success (oracle : Oracle) (p : String) :
    ∀ (n k : Nat) (lastErr : Option String) (r : ProviderResult),
      (tryAttemptsAux oracle p n k lastErr).1 = some r → r.success = true := by
  intro n
  induction n with
  | zero => intro k le r h; simp [tryAttemptsAux] at h
  | succ n2 ih =>
    intro k le r h
    rcases ho : oracle p k with e0 | r0
    · simp [tryAttemptsAux, ho] at h
      exact ih (k + 1) (some e0) r h
    · by_cases hs : r0.success
      · simp [tryAttemptsAux, ho, hs] at h
        rw [← h]; exact hs
      · simp [tryAttemptsAux, ho, hs] at h
        exact ih (k + 1) le r h

theorem successAt_some (oracle : Oracle) (p : String) (k : Nat)
    (r : ProviderResult) (h : successAt oracle p k = some r) :
    oracle p k = .ok r ∧ r.success = true := by
  rcases ho : oracle p k with e | r0
  · simp [successAt, ho] at h
  · by_cases hs : r0.success
    · simp [successAt, ho, hs] at h
      subst h
      exact ⟨rfl, hs⟩
    · simp [successAt, ho, hs] at h

theorem successAt_none_good (oracle : Oracle) (p : String) (k : Nat)
    (hg : GoodOracle oracle) (h : successAt oracle p k = none) :
    ∃ e, oracle p k = .error e := by
  rcases ho : oracle p k with e | r0
  · exact ⟨e, rfl⟩
  · simp [successAt, ho, hg p k r0 ho] at h

theorem getLast?_some_ne_nil {α : Type} {l : List α} {a : α}
    (h : l.getLast? = some a) : l ≠ [] := by
  intro hn
  subst hn
  simp at h

/-- Step lemma: a provider that exhausts both attempts contributes its block
to the trace and hands its last error to the rest of the loop. -/
theorem tryProviders_cons_err (oracle : Oracle) (p : String)
    (rest : List String) (lastErr : Option String) (e1 : String)
    (hp : p ∈ providerKeys)
    (hta : tryAttempts oracle p lastErr = (none, some e1, attemptBlock p)) :
    tryProviders oracle (p :: rest) lastErr =
      ((tryProviders oracle rest (some e1)).1,
       (tryProviders oracle rest (some e1)).2.1,
       attemptBlock p ++ (tryProviders oracle rest (some e1)).2.2) := by
  simp [tryProviders, hp, hta]

/-- Step lemma: a provider whose attempt loop yields a success ends the
provider loop at once. -/
theorem tryProviders_cons_ok (oracle : Oracle) (p : String)
    (rest : List String) (lastErr e : Option String) (r : ProviderResult)
    (tr : List Event) (hp : p ∈ providerKeys)
    (hta : tryAttempts oracle p lastErr = (some r, e, tr)) :
    tryProviders oracle (p :: rest) lastErr = (some (p, r), e, tr) := by
  simp [tryProviders, hp, hta]

/-- When every attempt of every provider throws, the loop walks the whole
schedule and keeps the error message of the last attempt of the last
provider. -/
theorem tryProviders_allError (oracle : Oracle) (em : String → Nat → String)
    (he : ∀ p k, oracle p k = .error (em p k)) :
    ∀ (order : List String), order ≠ [] → (∀ p ∈ order, p ∈ providerKeys) →
      ∀ lastErr, tryProviders oracle order lastErr =
        (none, some (em (order.getLastD "") 1), canonicalFull order) := by
  intro order
  induction order with
  | nil => intro h; exact absurd rfl h
  | cons p rest ih =>
    intro _ hmem lastErr
    have hp : p ∈ providerKeys := hmem p (List.mem_cons_self p rest)
    have hta := tryAttempts_err_err oracle p lastErr (em p 0) (em p 1)
      (he p 0) (he p 1)
    have heq := tryProviders_cons_err oracle p rest lastErr (em p 1) hp hta
    cases rest with
    | nil =>
      rw [heq]
      simp [tryProviders, canonicalFull, attemptBlock, List.getLastD]
    | cons q rest2 =>
      have hmem2 : ∀ x ∈ q :: rest2, x ∈ providerKeys :=
        fun x hx => hmem x (List.mem_cons_of_mem p hx)
      have hih := ih (by simp) hmem2 (some (em p 1))
      rw [heq, hih]
      simp [canonicalFull, attemptBlock, List.getLastD_cons]

/-- Under a good oracle the emitted trace is an initial segment of the
canonical schedule, and the loop returns exactly the first successful
provider/attempt of the order, its last trace event being that attempt. -/
theorem tryProviders_good (oracle : Oracle) (hg : GoodOracle oracle) :
    ∀ (order : List String), (∀ p ∈ order, p ∈ providerKeys) →
      ∀ lastErr,
        firstSegOf (tryProviders oracle order lastErr).2.2
          (canonicalFull order) ∧
        (∀ p k r, firstSuccess oracle order = some (p, k, r) →
          (tryProviders oracle order lastErr).1 = some (p, r) ∧
          (tryProviders oracle order lastErr).2.2.getLast? =
            some (.attempt p k)) ∧
        (firstSuccess oracle order = none →
          (tryProviders oracle order lastErr).1 = none) := by
  intro order
  induction order with
  | nil =>
    intro _ lastErr
    refine ⟨⟨[], rfl⟩, ?_, fun _ => rfl⟩
    intro p k r h
    simp [firstSuccess] at h
  | cons p rest ih =>
    intro hmem lastErr
    have hp : p ∈ providerKeys := hmem p (List.mem_cons_self p rest)
    have hmem2 : ∀ x ∈ rest, x ∈ providerKeys :=
      fun x hx => hmem x (List.mem_cons_of_mem p hx)
    rcases hfa : firstSuccessAttempt oracle p with _ | ⟨k, r⟩
    · -- provider p has no successful attempt: both its attempts threw
      obtain ⟨e0, e1, ho0, ho1⟩ := firstSuccessAttempt_none oracle p hg hfa
      have hta := tryAttempts_err_err oracle p lastErr e0 e1 ho0 ho1
      obtain ⟨ihseg, ihsome, ihnone⟩ := ih hmem2 (some e1)
      have heq := tryProviders_cons_err oracle p rest lastErr e1 hp hta
      have hfs : firstSuccess oracle (p :: rest) = firstSuccess oracle rest := by
        simp [firstSuccess, hp, hfa]
      refine ⟨?_, ?_, ?_⟩
      · obtain ⟨t, ht⟩ := ihseg
        refine ⟨t, ?_⟩
        rw [heq]
        show (attemptBlock p ++ (tryProviders oracle rest (some e1)).2.2) ++ t =
          canonicalFull (p :: rest)
        rw [List.append_assoc, ht]
        simp [canonicalFull]
      · intro p2 k2 r2 h2
        rw [hfs] at h2
        obtain ⟨hres, hlast⟩ := ihsome p2 k2 r2 h2
        rw [heq]
        refine ⟨hres, ?_⟩
        have hne := getLast?_some_ne_nil hlast
        show (attemptBlock p ++
          (tryProviders oracle rest (some e1)).2.2).getLast? =
            some (.attempt p2 k2)
        rw [List.getLast?_append_of_ne_nil _ hne]
        exact hlast
      · intro h2
        rw [hfs] at h2
        rw [heq]
        exact ihnone h2
    · -- provider p succeeds at attempt k
      have hres : tryAttempts oracle p lastErr =
          (some r, (tryAttempts oracle p lastErr).2.1,
            (tryAttempts oracle p lastErr).2.2) ∧
          ((tryAttempts oracle p lastErr).2.2 = [.attempt p 0] ∧ k = 0 ∨
           (tryAttempts oracle p lastErr).2.2 = attemptBlock p ∧ k = 1) := by
        rcases h0 : successAt oracle p 0 with _ | r0
        · rcases h1 : successAt oracle p 1 with _ | r1
          · simp [firstSuccessAttempt, h0, h1] at hfa
          · obtain ⟨hok1, hs1⟩ := successAt_some oracle p 1 r1 h1
            obtain ⟨e0, ho0⟩ := successAt_none_good oracle p 0 hg h0
            have := tryAttempts_err_ok oracle p lastErr e0 r1 ho0 hok1 hs1
            simp [firstSuccessAttempt, h0, h1] at hfa
            simp [this, attemptBlock, ← hfa.1, ← hfa.2]
        · obtain ⟨hok0, hs0⟩ := successAt_some oracle p 0 r0 h0
          have := tryAttempts_ok0 oracle p lastErr r0 hok0 hs0
          simp [firstSuccessAttempt, h0] at hfa
          simp [this, ← hfa.1, ← hfa.2]
      have hta : tryAttempts oracle p lastErr =
          (some r, (tryAttempts oracle p lastErr).2.1,
            (tryAttempts oracle p lastErr).2.2) := hres.1
      have heq := tryProviders_cons_ok oracle p rest lastErr
        (tryAttempts oracle p lastErr).2.1 r
        (tryAttempts oracle p lastErr).2.2 hp hres.1
      have hfs : firstSuccess oracle (p :: rest) = some (p, k, r) := by
        simp [firstSuccess, hp, hfa]
      refine ⟨?_, ?_, ?_⟩
      · rcases hres.2 with ⟨htr, _⟩ | ⟨htr, _⟩
        · refine ⟨[.sleep config.retryDelay, .attempt p 1] ++
            canonicalFull rest, ?_⟩
          rw [heq]
          simp [htr, canonicalFull, attemptBlock]
        · refine ⟨canonicalFull rest, ?_⟩
          rw [heq]
          simp [htr, canonicalFull, attemptBlock]
      · intro p2 k2 r2 h2
        rw [hfs] at h2
        simp only [Option.some.injEq, Prod.mk.injEq] at h2
        obtain ⟨h2p, h2k, h2r⟩ := h2
        subst h2p; subst h2k; subst h2r
        rw [heq]
        refine ⟨rfl, ?_⟩
        rcases hres.2 with ⟨htr, hk⟩ | ⟨htr, hk⟩ <;> subst hk <;>
          simp [htr, attemptBlock]
      · intro h2
        rw [hfs] at h2
        simp at h2

/-! ### Provider order and run-composition lemmas -/

theorem providerKeys_nodup : providerKeys.Nodup := by decide

theorem order_mem_keys (active : Option String)
    (ha : ∀ x, active = some x → x ∈ providerKeys) :
    ∀ p ∈ providerOrder none active, p ∈ providerKeys := by
  cases active with
  | none => intro p hp; simpa [providerOrder, defaultOrder] using hp
  | some a =>
    intro p hp
    simp only [providerOrder, defaultOrder] at hp
    by_cases hae : a = ""
    · rw [if_pos hae] at hp; exact hp
    · rw [if_neg hae] at hp
      rcases List.mem_cons.mp hp with h | h
      · subst h; exact ha p rfl
      · exact List.mem_of_mem_filter h

theorem order_ne_nil (active : Option String) :
    providerOrder none active ≠ [] := by
  cases active with
  | none => simp [providerOrder, defaultOrder, providerKeys]
  | some a =>
    simp only [providerOrder, defaultOrder]
    by_cases hae : a = ""
    · rw [if_pos hae]; simp [providerKeys]
    · rw [if_neg hae]; simp

theorem order_nodup (active : Option String)
    (ha : ∀ x, active = some x → x ∈ providerKeys) :
    (providerOrder none active).Nodup := by
  cases active with
  | none => simp [providerOrder, defaultOrder]; decide
  | some a =>
    simp only [providerOrder, defaultOrder]
    by_cases hae : a = ""
    · rw [if_pos hae]; decide
    · rw [if_neg hae]
      refine List.nodup_cons.mpr ⟨?_, List.Nodup.filter _ providerKeys_nodup⟩
      intro hmem
      have := List.of_mem_filter hmem
      simp at this

theorem firstSegOf_countP {α : Type} (f : α → Bool) (l big : List α)
    (h : firstSegOf l big) : l.countP f ≤ big.countP f := by
  obtain ⟨t, ht⟩ := h
  rw [← ht, List.countP_append]
  omega

theorem countAttempts_attemptBlock (p q : String) :
    countAttempts p (attemptBlock q) = if q == p then 2 else 0 := by
  by_cases h : q = p <;>
    simp [countAttempts, attemptBlock, List.countP_cons, h]

theorem countAttempts_canonicalFull (p : String) :
    ∀ order : List String,
      countAttempts p (canonicalFull order) = 2 * order.count p := by
  intro order
  induction order with
  | nil => simp [canonicalFull, countAttempts]
  | cons q rest ih =>
    have happ : canonicalFull (q :: rest) =
        attemptBlock q ++ canonicalFull rest := by
      simp [canonicalFull]
    rw [happ]
    simp only [countAttempts, List.countP_append] at ih ⊢
    rw [show (attemptBlock q).countP _ = countAttempts p (attemptBlock q)
      from rfl, countAttempts_attemptBlock, List.count_cons]
    by_cases h : q == p <;> simp [h] at ih ⊢ <;> omega

theorem mapDelete_mapSet_self {V : Type} (k : String) (v : V) :
    ∀ m : List (String × V), mapGet k m = none →
      mapDelete k (mapSet k v m) = m := by
  intro m
  induction m with
  | nil => intro _; simp [mapSet, mapDelete]
  | cons hd tl ih =>
    obtain ⟨k2, v2⟩ := hd
    intro hg
    by_cases h : k2 = k
    · simp [mapGet, h] at hg
    · simp only [mapGet, if_neg h] at hg
      simp [mapSet, mapDelete, h, ih hg]

theorem performTranslation_eq_ok (oracle : Oracle) (t : String)
    (pref : Option String) (now : Nat) (st : TState) (p : String)
    (r : ProviderResult) (e : Option String) (tr : List Event)
    (h : tryProviders oracle (providerOrder pref st.active) none =
      (some (p, r), e, tr)) :
    performTranslation oracle t pref now st =
      (providerOutcome r,
        { st with cache := addToCache t r now st.cache, active := some p },
        tr) := by
  unfold performTranslation
  rw [h]

theorem performTranslation_eq_err (oracle : Oracle) (t : String)
    (pref : Option String) (now : Nat) (st : TState)
    (e : Option String) (tr : List Event)
    (h : tryProviders oracle (providerOrder pref st.active) none =
      (none, e, tr)) :
    performTranslation oracle t pref now st = (failureOutcome e, st, tr) := by
  unfold performTranslation
  rw [h]

theorem performTranslation_trace (oracle : Oracle) (t : String)
    (pref : Option String) (now : Nat) (st : TState) :
    (performTranslation oracle t pref now st).2.2 =
      (tryProviders oracle (providerOrder pref st.active) none).2.2 := by
  rcases htp : tryProviders oracle (providerOrder pref st.active) none
    with ⟨o, e, tr⟩
  cases o with
  | none => rw [performTranslation_eq_err oracle t pref now st e tr htp]
  | some pr =>
    obtain ⟨p, r⟩ := pr
    rw [performTranslation_eq_ok oracle t pref now st p r e tr htp]

theorem performTranslation_pending_indep (oracle : Oracle) (t : String)
    (pref : Option String) (now : Nat) (st : TState)
    (x : List (String × Nat)) (y : Nat) :
    performTranslation oracle t pref now
        { st with pending := x, nextPromise := y } =
      ((performTranslation oracle t pref now st).1,
       { (performTranslation oracle t pref now st).2.1 with
           pending := x, nextPromise := y },
       (performTranslation oracle t pref now st).2.2) := by
  rcases htp : tryProviders oracle (providerOrder pref st.active) none
    with ⟨o, e, tr⟩
  have htp2 : tryProviders oracle
      (providerOrder pref ({ st with pending := x, nextPromise := y } :
        TState).active) none = (o, e, tr) := htp
  cases o with
  | none =>
    rw [performTranslation_eq_err oracle t pref now st e tr htp,
      performTranslation_eq_err oracle t pref now _ e tr htp2]
  | some pr =>
    obtain ⟨p, r⟩ := pr
    rw [performTranslation_eq_ok oracle t pref now st p r e tr htp,
      performTranslation_eq_ok oracle t pref now _ p r e tr htp2]

/-- A valid input that misses the cache and the pending map drives a whole
`performTranslation`, after which the fresh promise is removed again from
the pending map. -/
theorem translateRun_miss (oracle : Oracle) (s : String) (skip : Bool)
    (pref : Option String) (now : Nat) (st : TState)
    (hs : s ≠ "") (ht : jsTrim s ≠ "")
    (hc : mapGet (jsTrim s) st.cache = none)
    (hp : mapGet (jsTrim s) st.pending = none) :
    translateRun oracle (.jsStr s) skip pref now st =
      (some (performTranslation oracle (jsTrim s) pref now st).1,
       { (performTranslation oracle (jsTrim s) pref now st).2.1 with
           pending := st.pending, nextPromise := st.nextPromise + 1 },
       .cacheLookup (jsTrim s) :: .pendingLookup (jsTrim s) ::
         (performTranslation oracle (jsTrim s) pref now st).2.2) := by
  have hphp := performTranslation_pending_indep oracle (jsTrim s) pref now st
    (mapSet (jsTrim s) st.nextPromise st.pending) (st.nextPromise + 1)
  have hdel := mapDelete_mapSet_self (jsTrim s) st.nextPromise st.pending hp
  simp [translateRun, translateSync, translatePendingPhase, hs, ht, hc, hp,
    hphp, hdel]

/-! ### Claim C2: all providers fail -/

def C2Concl (oracle : Oracle) (em : String → Nat → String) (s : String)
    (now : Nat) (st : TState) : Prop :=
  (translateRun oracle (.jsStr s) false none now st).1 =
    some { success := some false,
           error := some (em ((providerOrder none st.active).getLastD "") 1),
           translation := some none }

/-- Claim C2: for a non-blank input, when every provider/attempt throws,
`translate` returns the failure object `success: false`, `translation: null`
carrying the error message of the last attempt (index 1) of the last
provider of the order.  The embedding of `performTranslation` is a total
function, so no exception crosses the `translate` boundary. -/
theorem translate_allFail_returns_last_error (oracle : Oracle)
    (em : String → Nat → String) (s : String) (now : Nat) (st : TState)
    (hs : s ≠ "") (ht : jsTrim s ≠ "")
    (hc : mapGet (jsTrim s) st.cache = none)
    (hp : mapGet (jsTrim s) st.pending = none)
    (ha : ∀ x, st.active = some x → x ∈ providerKeys)
    (he : ∀ p k, oracle p k = .error (em p k))
    (hne : em ((providerOrder none st.active).getLastD "") 1 ≠ "") :
    C2Concl oracle em s now st := by
  have hmem := order_mem_keys st.active ha
  have hnil := order_ne_nil st.active
  have htp := tryProviders_allError oracle em he (providerOrder none st.active)
    hnil hmem none
  have hrun := translateRun_miss oracle s false none now st hs ht hc hp
  have hperf := performTranslation_eq_err oracle (jsTrim s) none now st
    (some (em ((providerOrder none st.active).getLastD "") 1))
    (canonicalFull (providerOrder none st.active)) htp
  unfold C2Concl
  rw [hrun]
  simp [hperf, failureOutcome, jsOrOptStr, hne]
  intro h2
  exact absurd h2 (by simpa [List.getLastD_eq_getLast?] using hne)

def allErrOracle : Oracle := fun p _ => .error ("fail " ++ p)

def st0 : TState := ⟨[], [], 0, none⟩

theorem translate_allFail_returns_last_error_witness :
    ("hi" ≠ "") ∧ (jsTrim "hi" ≠ "") ∧
    mapGet (jsTrim "hi") st0.cache = none ∧
    mapGet (jsTrim "hi") st0.pending = none ∧
    (∀ x, st0.active = some x → x ∈ providerKeys) ∧
    (∀ p k, allErrOracle p k = .error ("fail " ++ p)) ∧
    ((fun p _ => "fail " ++ p : String → Nat → String)
      ((providerOrder none st0.active).getLastD "") 1 ≠ "") ∧
    C2Concl allErrOracle (fun p _ => "fail " ++ p) "hi" 0 st0 := by
  refine ⟨by decide, by decide, rfl, rfl, ?_, fun p k => rfl, by decide, ?_⟩
  · intro x hx; exact Option.noConfusion hx
  · exact translate_allFail_returns_last_error allErrOracle
      (fun p _ => "fail " ++ p) "hi" 0 st0 (by decide) (by decide) rfl rfl
      (fun x hx => Option.noConfusion hx) (fun p k => rfl) (by decide)

/-! ### Claim C3: provider iteration order, retries, first success -/

def C3Concl (oracle : Oracle) (s : String) (now : Nat) (st : TState) : Prop :=
  config.retryAttempts = 2 ∧ config.retryDelay = 1000 ∧
  (∀ a, st.active = some a →
    providerOrder none st.active =
      a :: providerKeys.filter (fun q => q != a)) ∧
  firstSegOf (performTranslation oracle (jsTrim s) none now st).2.2
    (canonicalFull (providerOrder none st.active)) ∧
  (∀ p k r,
    firstSuccess oracle (providerOrder none st.active) = some (p, k, r) →
    (performTranslation oracle (jsTrim s) none now st).1 =
      providerOutcome r ∧
    (performTranslation oracle (jsTrim s) none now st).2.1.cache =
      addToCache (jsTrim s) r now st.cache ∧
    (performTranslation oracle (jsTrim s) none now st).2.1.active = some p ∧
    (performTranslation oracle (jsTrim s) none now st).2.2.getLast? =
      some (.attempt p k)) ∧
  (translateRun oracle (.jsStr s) false none now st).1 =
    some (performTranslation oracle (jsTrim s) none now st).1 ∧
  (translateRun oracle (.jsStr s) false none now st).2.2 =
    .cacheLookup (jsTrim s) :: .pendingLookup (jsTrim s) ::
      (performTranslation oracle (jsTrim s) none now st).2.2

/-- Claim C3: on a cache miss the provider loop starts with the active
provider followed by the remaining providers in priority order, makes at
most `retryAttempts = 2` attempts per provider separated by a
`retryDelay = 1000` sleep (the trace is an initial segment of the canonical
schedule), and at the first successful attempt it stops, writes the result
through `addToCache` and records that provider as the active one. -/
theorem providerChain_order_retry_firstSuccess (oracle : Oracle) (s : String)
    (now : Nat) (st : TState)
    (hg : GoodOracle oracle) (hs : s ≠ "") (ht : jsTrim s ≠ "")
    (hc : mapGet (jsTrim s) st.cache = none)
    (hp : mapGet (jsTrim s) st.pending = none)
    (ha : ∀ x, st.active = some x → x ∈ providerKeys) :
    C3Concl oracle s now st := by
  have hmem := order_mem_keys st.active ha
  obtain ⟨hseg, hsome, hnone⟩ :=
    tryProviders_good oracle hg (providerOrder none st.active) hmem none
  have hrun := translateRun_miss oracle s false none now st hs ht hc hp
  refine ⟨rfl, rfl, ?_, ?_, ?_, ?_, ?_⟩
  · intro a haa
    have hak := ha a haa
    have hane : a ≠ "" := by
      intro hcontra
      subst hcontra
      simp [providerKeys] at hak
    simp [providerOrder, defaultOrder, haa, hane]
  · rw [performTranslation_trace]
    exact hseg
  · intro p k r hfs
    obtain ⟨hres1, hlast⟩ := hsome p k r hfs
    rcases htp : tryProviders oracle (providerOrder none st.active) none
      with ⟨o, e, tr⟩
    rw [htp] at hres1 hlast
    simp only at hres1 hlast
    subst hres1
    have hperf := performTranslation_eq_ok oracle (jsTrim s) none now st
      p r e tr htp
    rw [hperf]
    exact ⟨rfl, rfl, rfl, hlast⟩
  · rw [hrun]
  · rw [hrun]

def allOkOracle : Oracle := fun p _ => .ok ⟨true, "Hello", 1, p⟩

def stActive : TState := ⟨[], [], 0, some "lingva"⟩

theorem providerChain_order_retry_firstSuccess_witness :
    GoodOracle allOkOracle ∧ ("hi" ≠ "") ∧ (jsTrim "hi" ≠ "") ∧
    mapGet (jsTrim "hi") stActive.cache = none ∧
    mapGet (jsTrim "hi") stActive.pending = none ∧
    (∀ x, stActive.active = some x → x ∈ providerKeys) ∧
    C3Concl allOkOracle "hi" 0 stActive := by
  have hgood : GoodOracle allOkOracle := by
    intro p k r h
    injection h with h2
    rw [← h2]
  have hact : ∀ x, stActive.active = some x → x ∈ providerKeys := by
    intro x hx
    injection hx with h2
    rw [← h2]
    decide
  exact ⟨hgood, by decide, by decide, rfl, rfl, hact,
    providerChain_order_retry_firstSuccess allOkOracle "hi" 0 stActive
      hgood (by decide) (by decide) rfl rfl hact⟩

/-! ### Claim C4: invalid input is rejected before any lookup -/

def C4Concl (input : JsInput) (skip : Bool) (st : TState) (oracle : Oracle)
    (pref : Option String) (now : Nat) : Prop :=
  ∃ r, translateSync input skip st = (.earlyFail r, st, []) ∧
    r.success = some false ∧
    (r.error = some "Invalid input text" ∨ r.error = some "Empty text") ∧
    translateRun oracle input skip pref now st = (some r, st, [])

/-- Claim C4: an input that is not a non-empty string after trimming is
rejected with a failure result; the empty trace shows that neither the
cache, nor the pending map, nor any provider was consulted, and the state
is returned unchanged. -/
theorem invalid_input_rejected (input : JsInput) (skip : Bool) (st : TState)
    (oracle : Oracle) (pref : Option String) (now : Nat)
    (h : input = .jsNull ∨ input = .jsOther ∨ input = .jsStr "" ∨
      ∃ s, input = .jsStr s ∧ jsTrim s = "") :
    C4Concl input skip st oracle pref now := by
  rcases h with h | h | h | ⟨s, h, hts⟩
  · subst h
    exact ⟨invalidInputOutcome, rfl, rfl, Or.inl rfl, rfl⟩
  · subst h
    exact ⟨invalidInputOutcome, rfl, rfl, Or.inl rfl, rfl⟩
  · subst h
    refine ⟨invalidInputOutcome, ?_, rfl, Or.inl rfl, ?_⟩
    · simp [translateSync]
    · simp [translateRun, translateSync]
  · subst h
    by_cases hse : s = ""
    · subst hse
      refine ⟨invalidInputOutcome, ?_, rfl, Or.inl rfl, ?_⟩
      · simp [translateSync]
      · simp [translateRun, translateSync]
    · refine ⟨emptyTextOutcome, ?_, rfl, Or.inr rfl, ?_⟩
      · simp [translateSync, hse, hts]
      · simp [translateRun, translateSync, hse, hts]

theorem invalid_input_rejected_witness :
    ((JsInput.jsStr "   ") = .jsNull ∨ (JsInput.jsStr "   ") = .jsOther ∨
      (JsInput.jsStr "   ") = .jsStr "" ∨
      ∃ s, (JsInput.jsStr "   ") = .jsStr s ∧ jsTrim s = "") ∧
    C4Concl (.jsStr "   ") false st0 allErrOracle none 0 := by
  have h : (JsInput.jsStr "   ") = .jsNull ∨ (JsInput.jsStr "   ") = .jsOther ∨
      (JsInput.jsStr "   ") = .jsStr "" ∨
      ∃ s, (JsInput.jsStr "   ") = .jsStr s ∧ jsTrim s = "" :=
    Or.inr (Or.inr (Or.inr ⟨"   ", rfl, by decide⟩))
  exact ⟨h, invalid_input_rejected (.jsStr "   ") false st0 allErrOracle
    none 0 h⟩

/-! ### Claim C8: request coalescing -/

theorem mapGet_mapSet_self {V : Type} (k : String) (v : V) :
    ∀ m : List (String × V), mapGet k (mapSet k v m) = some v := by
  intro m
  induction m with
  | nil => simp [mapSet, mapGet]
  | cons hd tl ih =>
    obtain ⟨k2, v2⟩ := hd
    by_cases h : k2 = k
    · simp [mapSet, mapGet, h]
    · simp [mapSet, mapGet, h, ih]

theorem tryProviders_cons_none (oracle : Oracle) (p : String)
    (rest : List String) (lastErr e2 : Option String) (tr2 : List Event)
    (hp : p ∈ providerKeys)
    (hta : tryAttempts oracle p lastErr = (none, e2, tr2)) :
    tryProviders oracle (p :: rest) lastErr =
      ((tryProviders oracle rest e2).1, (tryProviders oracle rest e2).2.1,
        tr2 ++ (tryProviders oracle rest e2).2.2) := by
  simp [tryProviders, hp, hta]

/-- The provider loop only ever returns a result whose success flag is set:
the attempt loop surfaces a resolved value only in that case. -/
theorem tryProviders_success_flag (oracle : Oracle) :
    ∀ (order : List String) (lastErr : Option String) (p : String)
      (r : ProviderResult) (e : Option String) (tr : List Event),
      tryProviders oracle order lastErr = (some (p, r), e, tr) →
      r.success = true := by
  intro order
  induction order with
  | nil => intro le p r e tr h; simp [tryProviders] at h
  | cons q rest ih =>
    intro le p r e tr h
    by_cases hq : q ∈ providerKeys
    · rcases hta : tryAttempts oracle q le with ⟨o, e2, tr2⟩
      cases o with
      | some r2 =>
        rw [tryProviders_cons_ok oracle q rest le e2 r2 tr2 hq hta] at h
        have hr2 : r2 = r := by
          simp only [Prod.mk.injEq, Option.some.injEq] at h
          exact h.1.2
        subst hr2
        exact tryAttempts_result_success oracle q config.retryAttempts 0 le r2
          (by rw [show tryAttemptsAux oracle q config.retryAttempts 0 le =
            tryAttempts oracle q le from rfl, hta])
      | none =>
        rw [tryProviders_cons_none oracle q rest le e2 tr2 hq hta] at h
        rcases htr : tryProviders oracle rest e2 with ⟨o3, e3, tr3⟩
        rw [htr] at h
        simp only [Prod.mk.injEq] at h
        exact ih e2 p r e3 tr3 (by rw [htr, h.1])
    · rw [show tryProviders oracle (q :: rest) le =
        tryProviders oracle rest le from by simp [tryProviders, hq]] at h
      exact ih le p r e tr h

/-- The state right after `translate` registers a fresh pending promise. -/
def startedState (clean : String) (st : TState) : TState :=
  { st with
      pending := mapSet clean st.nextPromise st.pending
      nextPromise := st.nextPromise + 1 }

def C8Concl (oracle : Oracle) (s : String) (now : Nat) (st : TState) : Prop :=
  (translateSync (.jsStr s) false st).1 =
    .started st.nextPromise (jsTrim s) ∧
  (translateSync (.jsStr s) false
    (translateSync (.jsStr s) false st).2.1).1 = .joined st.nextPromise ∧
  (translateSync (.jsStr s) false
    (translateSync (.jsStr s) false st).2.1).2.1 =
      (translateSync (.jsStr s) false st).2.1 ∧
  (∀ p k, Event.attempt p k ∉
    (translateSync (.jsStr s) false
      (translateSync (.jsStr s) false st).2.1).2.2) ∧
  (∀ p, countAttempts p
    (performTranslation oracle (jsTrim s) none now
      (translateSync (.jsStr s) false st).2.1).2.2 ≤ config.retryAttempts)

/-- Claim C8, amended: a second `translate` call for the identical trimmed
text, arriving while the first is still in flight, is answered with the very
promise id the first call registered, changes no state and issues no
outbound attempt; so the two calls together drive exactly one
`performTranslation`, which issues at most `retryAttempts = 2` outbound
attempts per provider — not at most one, since the single in-flight
translation may retry a failing provider. -/
theorem request_coalescing (oracle : Oracle) (s : String) (now : Nat)
    (st : TState) (hg : GoodOracle oracle) (hs : s ≠ "")
    (ht : jsTrim s ≠ "") (hc : mapGet (jsTrim s) st.cache = none)
    (hp : mapGet (jsTrim s) st.pending = none)
    (ha : ∀ x, st.active = some x → x ∈ providerKeys) :
    C8Concl oracle s now st := by
  have hsync1 : translateSync (.jsStr s) false st =
      (.started st.nextPromise (jsTrim s), startedState (jsTrim s) st,
       [.cacheLookup (jsTrim s), .pendingLookup (jsTrim s)]) := by
    simp [translateSync, translatePendingPhase, startedState, hs, ht, hc, hp]
  have hget := mapGet_mapSet_self (jsTrim s) st.nextPromise st.pending
  have hsync2 : translateSync (.jsStr s) false (startedState (jsTrim s) st) =
      (.joined st.nextPromise, startedState (jsTrim s) st,
       [.cacheLookup (jsTrim s), .pendingLookup (jsTrim s)]) := by
    simp [translateSync, translatePendingPhase, startedState, hs, ht, hc, hget]
  have hcount : ∀ p, countAttempts p
      (performTranslation oracle (jsTrim s) none now st).2.2 ≤ 2 := by
    intro p
    have hmem := order_mem_keys st.active ha
    have hseg := (tryProviders_good oracle hg (providerOrder none st.active)
      hmem none).1
    have h1 : countAttempts p
        (performTranslation oracle (jsTrim s) none now st).2.2 ≤
        countAttempts p (canonicalFull (providerOrder none st.active)) := by
      rw [performTranslation_trace]
      exact firstSegOf_countP _ _ _ hseg
    have h2 := countAttempts_canonicalFull p (providerOrder none st.active)
    have h3 : (providerOrder none st.active).count p ≤ 1 :=
      List.nodup_iff_count_le_one.mp (order_nodup st.active ha) p
    omega
  refine ⟨?_, ?_, ?_, ?_, ?_⟩
  · rw [hsync1]
  · rw [hsync1]
    exact congrArg (fun x => x.1) hsync2
  · rw [hsync1]
    exact congrArg (fun x => x.2.1) hsync2
  · intro p k
    rw [hsync1]
    have := congrArg (fun x => x.2.2) hsync2
    simp only at this
    rw [this]
    simp
  · intro p
    rw [hsync1]
    simp only [startedState]
    rw [performTranslation_pending_indep]
    exact hcount p

/-- An oracle under which the first provider throws once and then succeeds
on its retry: a single in-flight translation already issues two outbound
attempts to that provider. -/
def retryOracle : Oracle := fun p k =>
  if p = "mymemory" ∧ k = 1 then .ok ⟨true, "Hello", 1, "MyMemory"⟩
  else .error "timeout"

/-- Claim C8, counterexample to the claim as stated: the two coalesced calls
do share the pending promise (the premise of the claim holds), yet the
provider `mymemory` receives two outbound attempts — one plus its retry —
for the two calls, refuting "at most one outbound attempt per provider". -/
theorem request_coalescing_counterexample :
    (translateSync (.jsStr "hi") false
      (translateSync (.jsStr "hi") false st0).2.1).1 = .joined 0 ∧
    ¬ (countAttempts "mymemory"
        (performTranslation retryOracle "hi" none 0
          (translateSync (.jsStr "hi") false st0).2.1).2.2 ≤ 1) := by
  decide

theorem request_coalescing_witness :
    GoodOracle retryOracle ∧ ("hi" ≠ "") ∧ (jsTrim "hi" ≠ "") ∧
    mapGet (jsTrim "hi") st0.cache = none ∧
    mapGet (jsTrim "hi") st0.pending = none ∧
    (∀ x, st0.active = some x → x ∈ providerKeys) ∧
    C8Concl retryOracle "hi" 0 st0 := by
  have hgood : GoodOracle retryOracle := by
    intro p k r h
    unfold retryOracle at h
    by_cases hcond : p = "mymemory" ∧ k = 1
    · rw [if_pos hcond] at h
      injection h with h2
      rw [← h2]
    · rw [if_neg hcond] at h
      exact Except.noConfusion h
  exact ⟨hgood, by decide, by decide, rfl, rfl,
    fun x hx => Option.noConfusion hx,
    request_coalescing retryOracle "hi" 0 st0 hgood (by decide) (by decide)
      rfl rfl (fun x hx => Option.noConfusion hx)⟩

/-! ### Claim C10: shape of a cache-hit result versus a fresh result -/

def C10Concl (oracle : Oracle) (s : String) (e : CacheEntry) (now : Nat)
    (st : TState) (pref : Option String) : Prop :=
  translateRun oracle (.jsStr s) false pref now st =
    (some (cachedOutcome e), st, [.cacheLookup (jsTrim s)]) ∧
  cachedOutcome e =
    { success := none, error := none,
      translation := some (some e.translation),
      confidence := some e.confidence, provider := some e.provider,
      timestamp := some e.timestamp, fromCache := some true } ∧
  (∀ p r e2 tr,
    tryProviders oracle (providerOrder pref st.active) none =
      (some (p, r), e2, tr) →
    (performTranslation oracle (jsTrim s) pref now st).1.success =
      some true ∧
    (performTranslation oracle (jsTrim s) pref now st).1.fromCache = none ∧
    (performTranslation oracle (jsTrim s) pref now st).1.timestamp = none)

/-- Claim C10: a cache hit returns the cached entry fields plus
`fromCache: true` and no `success` field, while a fresh successful result
carries `success: true` and no `fromCache` or `timestamp` field. -/
theorem cacheHit_result_shape (oracle : Oracle) (s : String) (e : CacheEntry)
    (now : Nat) (st : TState) (pref : Option String)
    (hs : s ≠ "") (ht : jsTrim s ≠ "")
    (hc : mapGet (jsTrim s) st.cache = some e) :
    C10Concl oracle s e now st pref := by
  refine ⟨?_, rfl, ?_⟩
  · simp [translateRun, translateSync, hs, ht, hc]
  · intro p r e2 tr htp
    have hflag := tryProviders_success_flag oracle
      (providerOrder pref st.active) none p r e2 tr htp
    rw [performTranslation_eq_ok oracle (jsTrim s) pref now st p r e2 tr htp]
    simp [providerOutcome, hflag]

def stCached : TState := ⟨[("hi", ⟨"Hello", 1, "MyMemory", 3⟩)], [], 0, none⟩

theorem cacheHit_result_shape_witness :
    ("hi" ≠ "") ∧ (jsTrim "hi" ≠ "") ∧
    mapGet (jsTrim "hi") stCached.cache = some ⟨"Hello", 1, "MyMemory", 3⟩ ∧
    C10Concl allOkOracle "hi" ⟨"Hello", 1, "MyMemory", 3⟩ 5 stCached none := by
  refine ⟨by decide, by decide, by decide, ?_⟩
  exact cacheHit_result_shape allOkOracle "hi" ⟨"Hello", 1, "MyMemory", 3⟩ 5
    stCached none (by decide) (by decide) (by decide)

/-! ### Translation history (`src/translator/app.js`) -/

/-- A history item as built at the `addToHistory` call sites:
`{ japanese, english, timestamp: Date.now() }`. -/
structure HistoryItem where
  japanese : String
  english : String
  timestamp : Nat
deriving DecidableEq

/-- Embedding of `state.maxHistory` (app.js line 23). -/
def maxHistory : Nat := 50

/-- Whether the history already holds an entry with the same
(japanese, english) pair (app.js lines 1340–1342). -/
def isDuplicateIn (item : HistoryItem) (hist : List HistoryItem) : Bool :=
  hist.any (fun h => h.japanese == item.japanese && h.english == item.english)

/-- Embedding of `addToHistory` (app.js lines 1338–1354): skip duplicates entirely,
otherwise unshift the item, truncate to `maxHistory` entries when the cap is
exceeded, and persist.  The boolean records whether `saveHistory()` ran. -/
def addToHistory (item : HistoryItem) (hist : List HistoryItem) :
    List HistoryItem × Bool :=
  if isDuplicateIn item hist then (hist, false)
  else
    let h1 := item :: hist
    let h2 := if maxHistory < h1.length then h1.take maxHistory else h1
    (h2, true)

theorem addToHistory_length (item : HistoryItem) (hist : List HistoryItem)
    (hle : hist.length ≤ maxHistory) :
    ((addToHistory item hist).1).length ≤ maxHistory := by
  simp only [addToHistory]
  split_ifs with h1 h2
  · exact hle
  · simp
  · simp only [List.length_cons] at h2 ⊢
    simpa using h2

theorem historyFold_length (items : List HistoryItem) :
    ∀ hist : List HistoryItem, hist.length ≤ maxHistory →
      ((items.foldl (fun acc i => (addToHistory i acc).1) hist)).length ≤
        maxHistory := by
  induction items with
  | nil => intro hist hle; exact hle
  | cons hd tl ih =>
    intro hist hle
    simp only [List.foldl_cons]
    exact ih _ (addToHistory_length hd hist hle)

def C5Concl : Prop :=
  maxHistory = 50 ∧
  (∀ items : List HistoryItem,
    ((items.foldl (fun acc i => (addToHistory i acc).1)
      ([] : List HistoryItem))).length ≤ maxHistory) ∧
  (∀ (item : HistoryItem) (hist : List HistoryItem),
    isDuplicateIn item hist = true → addToHistory item hist = (hist, false)) ∧
  (∀ (item : HistoryItem) (hist : List HistoryItem),
    isDuplicateIn item hist = false →
      (addToHistory item hist).1.head? = some item ∧
      (addToHistory item hist).2 = true)

/-- Claim C5: after any sequence of `addToHistory` calls the history holds
at most 50 entries; a fresh item lands at the front and is persisted; an
item whose (japanese, english) pair duplicates an existing entry leaves the
history unchanged and skips the persistence write. -/
theorem history_capped_front_dedup : C5Concl := by
  refine ⟨rfl, ?_, ?_, ?_⟩
  · intro items
    exact historyFold_length items [] (by simp)
  · intro item hist hd
    simp [addToHistory, hd]
  · intro item hist hd
    simp only [addToHistory, hd, Bool.false_eq_true, if_false]
    constructor
    · by_cases hlen : maxHistory < (item :: hist).length
      · rw [if_pos hlen]
        rw [show maxHistory = 49 + 1 from rfl, List.take_succ_cons]
        rfl
      · rw [if_neg hlen]
        rfl
    · trivial

theorem history_capped_front_dedup_witness :
    isDuplicateIn ⟨"駅", "station", 9⟩ [⟨"駅", "station", 2⟩] = true ∧
    addToHistory ⟨"駅", "station", 9⟩ [⟨"駅", "station", 2⟩] =
      ([⟨"駅", "station", 2⟩], false) := by
  refine ⟨by decide, ?_⟩
  exact history_capped_front_dedup.2.2.1 ⟨"駅", "station", 9⟩
    [⟨"駅", "station", 2⟩] (by decide)

/-! ### OCR module (`src/translator/ocr.js`) -/

/-- The confidence-relevant part of the OCR `config` object (line 29). -/
structure OCRConfig where
  errorCorrectionLevel : Nat
  preserveInterwordSpaces : Bool
  minConfidence : ℚ

def ocrConfig : OCRConfig :=
  { errorCorrectionLevel := 3
    preserveInterwordSpaces := true
    minConfidence := 40 }

/-- The character class of the `japaneseRegex` of ocr.js (line 33). -/
def isJapaneseChar (c : Char) : Bool :=
  (0x3000 ≤ c.toNat && c.toNat ≤ 0x303f) ||
  (0x3040 ≤ c.toNat && c.toNat ≤ 0x309f) ||
  (0x30a0 ≤ c.toNat && c.toNat ≤ 0x30ff) ||
  (0x4e00 ≤ c.toNat && c.toNat ≤ 0x9faf) ||
  (0x3400 ≤ c.toNat && c.toNat ≤ 0x4dbf)

/-- Embedding of `japaneseRegex.test`: some character of the string is in the class. -/
def testJapanese (s : String) : Bool := s.data.any isJapaneseChar

/-- The wider class used by `extractJapaneseText` (line 422), which also
takes the halfwidth/fullwidth forms block. -/
def isJapaneseExtChar (c : Char) : Bool :=
  isJapaneseChar c || (0xff00 ≤ c.toNat && c.toNat ≤ 0xffef)

/-- Maximal runs of extended-Japanese characters, leftmost first (the
regex `/[...]+/g` match list). -/
def jRunsAux : List Char → List Char → List (List Char)
  | cur, [] => if cur = [] then [] else [cur.reverse]
  | cur, c :: rest =>
    if isJapaneseExtChar c then jRunsAux (c :: cur) rest
    else if cur = [] then jRunsAux [] rest
    else cur.reverse :: jRunsAux [] rest

/-- Embedding of `extractJapaneseText` (ocr.js lines 418–424): join the maximal
Japanese runs with single spaces; empty input or no match gives the empty
string. -/
def extractJapaneseText (text : String) : String :=
  if text = "" then ""
  else
    match jRunsAux [] text.data with
    | [] => ""
    | runs => String.intercalate " " (runs.map String.mk)

structure BBox where
  x0 : Int
  y0 : Int
  x1 : Int
  y1 : Int
deriving DecidableEq

/-- A raw word/line/block entry of a Tesseract result. -/
structure RawEntry where
  text : String
  confidence : ℚ
  bbox : BBox
deriving DecidableEq

/-- The `result.data` object handed to `parseResult`. -/
structure RawData where
  text : String
  confidence : ℚ
  words : List RawEntry
  lines : List RawEntry
  blocks : List RawEntry
deriving DecidableEq

structure ParsedWord where
  text : String
  confidence : ℚ
  bbox : BBox
  isJapanese : Bool
deriving DecidableEq

structure ParsedEntry where
  text : String
  confidence : ℚ
  bbox : BBox
deriving DecidableEq

/-- The value `parseResult` returns; `japaneseText := none` models the
failure object of lines 352–362, which carries no such field. -/
structure ParsedResult where
  success : Bool
  text : String
  japaneseText : Option String
  confidence : ℚ
  hasJapanese : Bool
  words : List ParsedWord
  lines : List ParsedEntry
  blocks : List ParsedEntry
deriving DecidableEq

/-- Embedding of `parseResult` (ocr.js lines 351–411).  The argument is `none` when
`!result || !result.data`; `opt` is `options.minConfidence`, defaulted
through `||` (so an explicit 0 falls back to the configured 40). -/
def parseResult (result : Option RawData) (opt : Option ℚ) : ParsedResult :=
  match result with
  | none =>
    { success := false, text := "", japaneseText := none, confidence := 0,
      hasJapanese := false, words := [], lines := [], blocks := [] }
  | some data =>
    let text := jsTrim data.text
    let minConf := jsNumOr opt ocrConfig.minConfidence
    { success := decide (0 < text.length)
      text := text
      japaneseText := some (extractJapaneseText text)
      confidence := data.confidence
      hasJapanese := testJapanese text
      words := (data.words.filter
          (fun w => decide (minConf ≤ w.confidence))).map
        (fun w => ⟨w.text, w.confidence, w.bbox, testJapanese w.text⟩)
      lines := (data.lines.filter
          (fun l => decide (minConf ≤ l.confidence))).map
        (fun l => ⟨jsTrim l.text, l.confidence, l.bbox⟩)
      blocks := (data.blocks.filter
          (fun b => decide (minConf ≤ b.confidence))).map
        (fun b => ⟨jsTrim b.text, b.confidence, b.bbox⟩) }

def C6Concl (raw : RawData) (opt : Option ℚ) : Prop :=
  ocrConfig.minConfidence = 40 ∧
  (∀ w ∈ (parseResult (some raw) opt).words,
    jsNumOr opt ocrConfig.minConfidence ≤ w.confidence) ∧
  (∀ l ∈ (parseResult (some raw) opt).lines,
    jsNumOr opt ocrConfig.minConfidence ≤ l.confidence) ∧
  (∀ b ∈ (parseResult (some raw) opt).blocks,
    jsNumOr opt ocrConfig.minConfidence ≤ b.confidence) ∧
  (parseResult (some raw) opt).text = jsTrim raw.text ∧
  (∀ opt2 : Option ℚ,
    (parseResult (some raw) opt2).text = (parseResult (some raw) opt).text) ∧
  (∀ e ∈ raw.words, e.confidence < jsNumOr opt ocrConfig.minConfidence →
    ∀ w ∈ (parseResult (some raw) opt).words,
      ¬(w.text = e.text ∧ w.confidence = e.confidence))

/-- Claim C6: every word, line and block entry surviving `parseResult` has
confidence at least the threshold (default 40), so a below-threshold entry
never appears in the returned lists; the aggregate `text` field is the
trimmed raw text, independent of the threshold, so the text of excluded
entries is never removed from it. -/
theorem parseResult_confidence_filter (raw : RawData) (opt : Option ℚ) :
    C6Concl raw opt := by
  refine ⟨rfl, ?_, ?_, ?_, by simp [parseResult], fun opt2 => by
    simp [parseResult], ?_⟩
  · intro w hw
    simp only [parseResult, List.mem_map, List.mem_filter] at hw
    obtain ⟨w0, ⟨_, hconf⟩, hmap⟩ := hw
    rw [← hmap]
    simpa using hconf
  · intro l hl
    simp only [parseResult, List.mem_map, List.mem_filter] at hl
    obtain ⟨l0, ⟨_, hconf⟩, hmap⟩ := hl
    rw [← hmap]
    simpa using hconf
  · intro b hb
    simp only [parseResult, List.mem_map, List.mem_filter] at hb
    obtain ⟨b0, ⟨_, hconf⟩, hmap⟩ := hb
    rw [← hmap]
    simpa using hconf
  · intro e _ hlt w hw hcontra
    have hge : jsNumOr opt ocrConfig.minConfidence ≤ w.confidence := by
      simp only [parseResult, List.mem_map, List.mem_filter] at hw
      obtain ⟨w0, ⟨_, hconf⟩, hmap⟩ := hw
      rw [← hmap]
      simpa using hconf
    rw [hcontra.2] at hge
    exact absurd hlt (not_lt.mpr hge)

/-- A raw result with one confident word and one word at confidence 35,
which the default threshold 40 drops from `words` while `text` keeps it. -/
def sampleRaw : RawData :=
  { text := " 駅 exit "
    confidence := 70
    words := [⟨"駅", 90, ⟨0, 0, 1, 1⟩⟩, ⟨"exit", 35, ⟨1, 0, 2, 1⟩⟩]
    lines := [⟨"駅 exit", 80, ⟨0, 0, 2, 1⟩⟩]
    blocks := [] }

theorem parseResult_confidence_filter_witness : C6Concl sampleRaw none :=
  parseResult_confidence_filter sampleRaw none

/-! ### Sharpen convolution (`sharpenImage`, ocr.js lines 298–343)

Pixel channels are 8-bit integers and the kernel weights are integers, so
the JavaScript float arithmetic of the source is exact and is embedded as
integer arithmetic; `Math.round` on these integer values is the identity. -/

structure Pixel where
  r : Nat
  g : Nat
  b : Nat
deriving DecidableEq

/-- The sharpen kernel (line 301); `side = 3`, `halfSide = 1`. -/
def sharpenWeights : List Int := [0, -1, 0, -1, 5, -1, 0, -1, 0]

/-- Embedding of `clamp` (lines 341–343) on an integer value. -/
def clamp (v : Int) : Int := max 0 (min 255 v)

/-- The inner `cx` loop of `sharpenImage` for one destination pixel, one
channel and one kernel row `cy`: out-of-bounds samples are skipped (they
contribute nothing and the divisor is not adjusted). -/
def convRow (w h : Nat) (chan : Nat → Nat → Nat) (x y cy : Nat)
    (acc : Int) : Int :=
  (List.range 3).foldl (fun acc2 (cx : Nat) =>
    let scy : Int := (y : Int) + (cy : Int) - 1
    let scx : Int := (x : Int) + (cx : Int) - 1
    if 0 ≤ scy ∧ scy < (h : Int) ∧ 0 ≤ scx ∧ scx < (w : Int) then
      acc2 + (chan scx.toNat scy.toNat : Int) *
        sharpenWeights.getD (cy * 3 + cx) 0
    else acc2) acc

def convChannel (w h : Nat) (chan : Nat → Nat → Nat) (x y : Nat) : Int :=
  (List.range 3).foldl (fun acc (cy : Nat) => convRow w h chan x y cy acc) 0

/-- One destination pixel of `sharpenImage`: the three convolved channels,
clamped to the 8-bit range (the alpha channel is set to 255 and not
modelled). -/
def sharpenPixel (w h : Nat) (img : Nat → Nat → Pixel) (x y : Nat) : Pixel :=
  { r := (clamp (convChannel w h (fun a b => (img a b).r) x y)).toNat
    g := (clamp (convChannel w h (fun a b => (img a b).g) x y)).toNat
    b := (clamp (convChannel w h (fun a b => (img a b).b) x y)).toNat }

/-- In-bounds rows contribute the row weight sum times the constant channel
value. -/
theorem convRow_const (w h : Nat) (chan : Nat → Nat → Nat) (v : Nat)
    (x y cy : Nat) (acc : Int) (hchan : ∀ a b, chan a b = v)
    (hc : ∀ cx : Nat, cx < 3 →
      0 ≤ (y : Int) + (cy : Int) - 1 ∧
      (y : Int) + (cy : Int) - 1 < (h : Int) ∧
      0 ≤ (x : Int) + (cx : Int) - 1 ∧
      (x : Int) + (cx : Int) - 1 < (w : Int)) :
    convRow w h chan x y cy acc =
      acc + (v : Int) * (sharpenWeights.getD (cy * 3 + 0) 0 +
        sharpenWeights.getD (cy * 3 + 1) 0 +
        sharpenWeights.getD (cy * 3 + 2) 0) := by
  have hr : List.range 3 = [0, 1, 2] := rfl
  simp only [convRow, hr, List.foldl_cons, List.foldl_nil, hchan]
  rw [if_pos (hc 0 (by norm_num)), if_pos (hc 1 (by norm_num)),
    if_pos (hc 2 (by norm_num))]
  ring

theorem convChannel_interior_const (w h : Nat) (chan : Nat → Nat → Nat)
    (v : Nat) (x y : Nat) (hchan : ∀ a b, chan a b = v)
    (hx1 : 1 ≤ x) (hx2 : x + 1 < w) (hy1 : 1 ≤ y) (hy2 : y + 1 < h) :
    convChannel w h chan x y = (v : Int) := by
  have hr : List.range 3 = [0, 1, 2] := rfl
  have hcond : ∀ cy : Nat, cy < 3 → ∀ cx : Nat, cx < 3 →
      0 ≤ (y : Int) + (cy : Int) - 1 ∧
      (y : Int) + (cy : Int) - 1 < (h : Int) ∧
      0 ≤ (x : Int) + (cx : Int) - 1 ∧
      (x : Int) + (cx : Int) - 1 < (w : Int) := by
    intro cy hcy cx hcx
    refine ⟨by omega, by omega, by omega, by omega⟩
  simp only [convChannel, hr, List.foldl_cons, List.foldl_nil]
  rw [convRow_const w h chan v x y 0 _ hchan (hcond 0 (by norm_num)),
    convRow_const w h chan v x y 1 _ hchan (hcond 1 (by norm_num)),
    convRow_const w h chan v x y 2 _ hchan (hcond 2 (by norm_num))]
  have e0 : sharpenWeights.getD (0 * 3 + 0) 0 = 0 := rfl
  have e1 : sharpenWeights.getD (0 * 3 + 1) 0 = -1 := rfl
  have e2 : sharpenWeights.getD (0 * 3 + 2) 0 = 0 := rfl
  have e3 : sharpenWeights.getD (1 * 3 + 0) 0 = -1 := rfl
  have e4 : sharpenWeights.getD (1 * 3 + 1) 0 = 5 := rfl
  have e5 : sharpenWeights.getD (1 * 3 + 2) 0 = -1 := rfl
  have e6 : sharpenWeights.getD (2 * 3 + 0) 0 = 0 := rfl
  have e7 : sharpenWeights.getD (2 * 3 + 1) 0 = -1 := rfl
  have e8 : sharpenWeights.getD (2 * 3 + 2) 0 = 0 := rfl
  rw [e0, e1, e2, e3, e4, e5, e6, e7, e8]
  ring

theorem clamp_toNat_of_le (v : Nat) (hv : v ≤ 255) :
    (clamp (v : Int)).toNat = v := by
  simp only [clamp, Int.max_def, Int.min_def]
  split_ifs <;> omega

/-- Claim C7: applying the sharpen convolution to a uniform image leaves
every interior pixel unchanged — over a flat region the kernel weights sum
to 1 and the clamp is the identity on an 8-bit value. -/
theorem sharpen_uniform_interior (w h : Nat) (c : Pixel) (x y : Nat)
    (hx1 : 1 ≤ x) (hx2 : x + 1 < w) (hy1 : 1 ≤ y) (hy2 : y + 1 < h)
    (hr : c.r ≤ 255) (hg : c.g ≤ 255) (hb : c.b ≤ 255) :
    sharpenPixel w h (fun _ _ => c) x y = c := by
  obtain ⟨cr, cg, cb⟩ := c
  dsimp only at hr hg hb
  simp only [sharpenPixel]
  rw [convChannel_interior_const w h _ cr x y (fun a b => rfl) hx1 hx2 hy1 hy2,
    convChannel_interior_const w h _ cg x y (fun a b => rfl) hx1 hx2 hy1 hy2,
    convChannel_interior_const w h _ cb x y (fun a b => rfl) hx1 hx2 hy1 hy2,
    clamp_toNat_of_le cr hr, clamp_toNat_of_le cg hg,
    clamp_toNat_of_le cb hb]

theorem sharpen_uniform_interior_witness :
    (1 ≤ 1 ∧ 1 + 1 < 3 ∧ (100 ≤ 255 ∧ 150 ≤ 255 ∧ 200 ≤ 255)) ∧
    sharpenPixel 3 3 (fun _ _ => ⟨100, 150, 200⟩) 1 1 = ⟨100, 150, 200⟩ :=
  ⟨by omega,
    sharpen_uniform_interior 3 3 ⟨100, 150, 200⟩ 1 1 (by omega) (by omega)
      (by omega) (by omega) (by decide) (by decide) (by decide)⟩

/-! ### Voice module (`src/translator/voice.js`) -/

/-- The module-level state read and written by `finishListening` and
`stopListening`; the timer and interval handles are `none` when cleared. -/
structure VoiceState where
  isListening : Bool
  sessionTranscript : String
  lastTranscript : String
  interimResults : String
  detectedLanguage : Option String
  currentLanguage : String
  silenceTimeout : Option Nat
  noSpeechTimeout : Option Nat
  volumeInterval : Option Nat
deriving DecidableEq

/-- The object `finishListening` returns. -/
structure VoiceResult where
  success : Bool
  text : String
  language : String
  confidence : Option ℚ
  error : Option String
deriving DecidableEq

/-- Embedding of `stopListening` (voice.js lines 632–650): clear the listening flag, the
silence and no-speech timers and the volume-monitoring interval; the
`recognition.abort()` call targets the external engine and touches no
modelled state. -/
def stopListening (st : VoiceState) : VoiceState :=
  { st with
      isListening := false
      silenceTimeout := none
      noSpeechTimeout := none
      volumeInterval := none }

/-- Embedding of `finishListening` (voice.js lines 454–488): pick the session
transcript, else the last transcript, else the interim results (each
trimmed, empty meaning falsy); stop listening; build the result; reset the
three accumulators. -/
def finishListening (st : VoiceState) : VoiceResult × VoiceState :=
  let finalText := jsOrStr (jsTrim st.sessionTranscript)
    (jsOrStr (jsTrim st.lastTranscript) (jsTrim st.interimResults))
  let language := jsOrOptStr st.detectedLanguage
    (if st.currentLanguage = "ja" then "ja" else "en")
  let st1 := stopListening st
  let result : VoiceResult :=
    if finalText ≠ "" then
      { success := true, text := finalText, language := language,
        confidence := some ((4 : ℚ) / 5), error := none }
    else
      { success := false, text := "", language := language,
        confidence := none, error := some "No speech detected" }
  (result,
    { st1 with
        sessionTranscript := ""
        lastTranscript := ""
        interimResults := "" })

def C9Concl (st : VoiceState) : Prop :=
  ((finishListening st).2.isListening = false ∧
    (finishListening st).2.sessionTranscript = "" ∧
    (finishListening st).2.lastTranscript = "" ∧
    (finishListening st).2.interimResults = "" ∧
    (finishListening st).2.silenceTimeout = none ∧
    (finishListening st).2.noSpeechTimeout = none ∧
    (finishListening st).2.volumeInterval = none) ∧
  (jsTrim st.sessionTranscript = "" → jsTrim st.lastTranscript = "" →
    jsTrim st.interimResults = "" →
    (finishListening st).1.success = false ∧
    (finishListening st).1.text = "" ∧
    (finishListening st).1.error = some "No speech detected") ∧
  (jsTrim st.sessionTranscript ≠ "" →
    (finishListening st).1.success = true ∧
    (finishListening st).1.text = jsTrim st.sessionTranscript) ∧
  (jsTrim st.sessionTranscript = "" → jsTrim st.lastTranscript ≠ "" →
    (finishListening st).1.success = true ∧
    (finishListening st).1.text = jsTrim st.lastTranscript) ∧
  (jsTrim st.sessionTranscript = "" → jsTrim st.lastTranscript = "" →
    jsTrim st.interimResults ≠ "" →
    (finishListening st).1.success = true ∧
    (finishListening st).1.text = jsTrim st.interimResults)

/-- Claim C9: `finishListening` with no captured speech returns
`success: false`, empty text and the error `No speech detected`, and in
every case leaves the adapter idle — listening flag down, timers cleared,
all session accumulation state reset — ready for a new `startListening`;
with accumulated speech it returns success with the final (session or last)
text, else the last interim text. -/
theorem finishListening_empty_and_reset (st : VoiceState) : C9Concl st := by
  refine ⟨?_, ?_, ?_, ?_, ?_⟩
  · simp [finishListening, stopListening]
  · intro h1 h2 h3
    simp [finishListening, stopListening, jsOrStr, h1, h2, h3]
  · intro h1
    simp [finishListening, stopListening, jsOrStr, h1]
  · intro h1 h2
    simp [finishListening, stopListening, jsOrStr, h1, h2]
  · intro h1 h2 h3
    simp [finishListening, stopListening, jsOrStr, h1, h2, h3]

def silentVoiceState : VoiceState :=
  { isListening := true
    sessionTranscript := "  "
    lastTranscript := ""
    interimResults := " "
    detectedLanguage := none
    currentLanguage := "en"
    silenceTimeout := some 7
    noSpeechTimeout := some 8
    volumeInterval := some 9 }

theorem finishListening_empty_and_reset_witness : C9Concl silentVoiceState :=
  finishListening_empty_and_reset silentVoiceState

end Itinerary
